import Mathlib

/-!
Verification of the evergreen-fortify report-ingestion core against its
natural-language specification.  The Python sources are shallowly embedded:
strings become `List Char` manipulations, CPython string methods
(`strip`, `lstrip`, `replace`, `count`, `split`, `lower`, `capitalize`)
are reproduced as executable Lean functions, dictionaries become
association lists, and the filesystem-backed cache becomes a record of
`Option` payloads transformed by explicit operations.
-/

namespace Fortify

/-! ## Python string primitives -/

/-- ASCII whitespace, the character class CPython's `str.strip` and the
regex class backslash-s act on for the texts handled here. -/
def isWsChar (c : Char) : Bool :=
  c = ' ' || c = '\t' || c = '\n' || c = '\r' || c = '\x0b' || c = '\x0c'

/-- `str.lstrip()` on a character list. -/
def lstripWs (l : List Char) : List Char := l.dropWhile isWsChar

/-- `str.rstrip()` on a character list. -/
def rstripWs (l : List Char) : List Char := ((l.reverse.dropWhile isWsChar)).reverse

/-- `str.strip()` on a character list. -/
def pyStrip (l : List Char) : List Char := rstripWs (lstripWs l)

/-- Python's substring test `needle in hay`. -/
def listContains (n : List Char) : List Char → Bool
  | [] => n.isEmpty
  | c :: t => n.isPrefixOf (c :: t) || listContains n t

/-- Python's `hay.replace(n, r)`: leftmost, non-overlapping.  The `Nat`
argument counts characters still to be skipped inside a replaced match. -/
def replGo (n r : List Char) : List Char → Nat → List Char
  | [], _ => []
  | _ :: t, k + 1 => replGo n r t k
  | c :: t, 0 =>
    if !n.isEmpty && n.isPrefixOf (c :: t) then r ++ replGo n r t (n.length - 1)
    else c :: replGo n r t 0

/-- `hay.replace(n, r)` for a non-empty pattern `n`. -/
def pyReplace (n r hay : List Char) : List Char := replGo n r hay 0

/-- Python's `hay.count(n)`: leftmost, non-overlapping occurrences.  The
`Nat` argument counts characters still to be skipped inside a match. -/
def countGo (n : List Char) : List Char → Nat → Nat
  | [], _ => 0
  | _ :: t, k + 1 => countGo n t k
  | c :: t, 0 =>
    if n.isPrefixOf (c :: t) then 1 + countGo n t (n.length - 1)
    else countGo n t 0

/-- `hay.count(n)` (CPython counts `len + 1` for the empty pattern). -/
def pyCount (n hay : List Char) : Nat :=
  if n.isEmpty then hay.length + 1 else countGo n hay 0

/-- Python's `text.split(chr(10))`, keeping empty pieces. -/
def splitNl : List Char → List (List Char)
  | [] => [[]]
  | c :: t =>
    if c = '\n' then [] :: splitNl t
    else
      match splitNl t with
      | [] => [[c]]
      | h :: hs => (c :: h) :: hs

/-- The inverse join used by `chr(10).join(lines)`. -/
def joinNl : List (List Char) → List Char
  | [] => []
  | [l] => l
  | l :: ls => l ++ '\n' :: joinNl ls

/-- Python's `str.lower()` (ASCII case fold, which covers every string
the tool lowercases). -/
def pyLower (l : List Char) : List Char := l.map Char.toLower

/-- Python's `str.capitalize()` restricted to ASCII data. -/
def pyCapitalize (l : List Char) : List Char :=
  match l with
  | [] => []
  | c :: t => c.toUpper :: t.map Char.toLower

end Fortify

namespace Fortify

/-! ### Basic lemmas about the primitives -/

theorem dropWhile_append_of_ne_nil {p : Char → Bool} {a : List Char}
    (b : List Char) (h : a.dropWhile p ≠ []) :
    (a ++ b).dropWhile p = a.dropWhile p ++ b := by
  induction a with
  | nil => simp [List.dropWhile] at h
  | cons c t ih =>
    by_cases hc : p c
    · simp only [List.cons_append, List.dropWhile_cons, hc, if_pos, ite_true] at h ⊢
      exact ih (by simpa [List.dropWhile, hc] using h)
    · simp [List.dropWhile_cons, hc]

theorem dropWhile_idem (p : Char → Bool) (l : List Char) :
    (l.dropWhile p).dropWhile p = l.dropWhile p := by
  induction l with
  | nil => rfl
  | cons c t ih =>
    by_cases hc : p c
    · simpa [List.dropWhile_cons, hc] using ih
    · simp [List.dropWhile_cons, hc]

theorem dropWhile_append_of_eq_nil {p : Char → Bool} {a : List Char}
    (b : List Char) (h : a.dropWhile p = []) :
    (a ++ b).dropWhile p = b.dropWhile p := by
  induction a with
  | nil => rfl
  | cons c t ih =>
    by_cases hc : p c
    · simp only [List.dropWhile_cons, hc, ite_true, if_pos] at h
      simpa [List.dropWhile_cons, hc] using ih h
    · simp [List.dropWhile_cons, hc] at h

theorem rstripWs_cons_of_not_ws {c : Char} (hc : ¬ isWsChar c) (l : List Char) :
    rstripWs (c :: l) = c :: rstripWs l := by
  unfold rstripWs
  rw [List.reverse_cons]
  rcases h : l.reverse.dropWhile isWsChar with _ | ⟨d, t⟩
  · rw [dropWhile_append_of_eq_nil [c] h]
    simp [List.dropWhile, hc]
  · rw [dropWhile_append_of_ne_nil [c] (by simp [h])]
    simp [h]

theorem rstripWs_cons_of_ne_nil {c : Char} {l : List Char} (h : rstripWs l ≠ []) :
    rstripWs (c :: l) = c :: rstripWs l := by
  unfold rstripWs at h ⊢
  rw [List.reverse_cons]
  have h' : l.reverse.dropWhile isWsChar ≠ [] := by
    intro hc; rw [hc] at h; exact h rfl
  rw [dropWhile_append_of_ne_nil [c] h']
  simp

theorem rstripWs_eq_nil_of_forall_ws {l : List Char} (h : ∀ c ∈ l, isWsChar c) :
    rstripWs l = [] := by
  unfold rstripWs
  rw [List.dropWhile_eq_nil_iff.mpr (fun c hc => h c (List.mem_reverse.mp hc))]
  rfl

theorem lstripWs_eq_nil_of_forall_ws {l : List Char} (h : ∀ c ∈ l, isWsChar c) :
    lstripWs l = [] :=
  List.dropWhile_eq_nil_iff.mpr h

theorem rstripWs_cons_of_ws_of_nil {c : Char} {l : List Char} (hc : isWsChar c)
    (h : rstripWs l = []) : rstripWs (c :: l) = [] := by
  unfold rstripWs at h ⊢
  rw [List.reverse_cons, dropWhile_append_of_eq_nil [c]
    (by simpa using congrArg List.reverse h)]
  simp [List.dropWhile, hc]

/-- Every list splits as its right-stripped part followed by trailing
whitespace. -/
theorem exists_rstrip_decomposition (l : List Char) :
    ∃ w, l = rstripWs l ++ w ∧ ∀ c ∈ w, isWsChar c := by
  refine ⟨(l.reverse.takeWhile isWsChar).reverse, ?_, ?_⟩
  · conv_lhs => rw [← l.reverse_reverse,
      ← List.takeWhile_append_dropWhile isWsChar l.reverse]
    rw [List.reverse_append]
    rfl
  · intro c hc
    exact List.mem_takeWhile_imp (List.mem_reverse.mp hc)

theorem rstrip_idem (l : List Char) : rstripWs (rstripWs l) = rstripWs l := by
  unfold rstripWs
  rw [List.reverse_reverse, dropWhile_idem]

theorem lstrip_rstrip_comm (l : List Char) :
    lstripWs (rstripWs l) = rstripWs (lstripWs l) := by
  induction l with
  | nil => rfl
  | cons c t ih =>
    by_cases hc : isWsChar c
    · have hr : lstripWs (c :: t) = lstripWs t := by
        simp [lstripWs, List.dropWhile_cons, hc]
      rcases h : rstripWs t with _ | ⟨d, r⟩
      · rw [rstripWs_cons_of_ws_of_nil hc h, hr, ← ih, h]
      · rw [rstripWs_cons_of_ne_nil (by simp [h]), hr, ← ih, h]
        simp [lstripWs, List.dropWhile_cons, hc]
    · rw [rstripWs_cons_of_not_ws hc]
      have hl : lstripWs (c :: rstripWs t) = c :: rstripWs t := by
        simp [lstripWs, List.dropWhile_cons, hc]
      have hl' : lstripWs (c :: t) = c :: t := by
        simp [lstripWs, List.dropWhile_cons, hc]
      rw [hl, hl', rstripWs_cons_of_not_ws hc]

theorem pyStrip_rstrip (l : List Char) : pyStrip (rstripWs l) = pyStrip l := by
  unfold pyStrip
  rw [lstrip_rstrip_comm, rstrip_idem]

theorem lstripWs_dropSpaces (l : List Char) :
    lstripWs (l.dropWhile (fun c => c = ' ')) = lstripWs l := by
  induction l with
  | nil => rfl
  | cons c t ih =>
    by_cases hc : c = ' '
    · subst hc
      simpa [lstripWs, List.dropWhile_cons, isWsChar] using ih
    · simp [List.dropWhile_cons, hc]

theorem pyStrip_dropSpaces (l : List Char) :
    pyStrip (l.dropWhile (fun c => c = ' ')) = pyStrip l := by
  unfold pyStrip
  rw [lstripWs_dropSpaces]

theorem forall_ws_of_rstripWs_eq_nil {l : List Char} (h : rstripWs l = []) :
    ∀ c ∈ l, isWsChar c := by
  have h' : l.reverse.dropWhile isWsChar = [] := by
    have h2 := congrArg List.reverse h
    simpa [rstripWs] using h2
  intro c hc
  exact List.dropWhile_eq_nil_iff.mp h' c (List.mem_reverse.mpr hc)

/-! ## clean_filename (actions/process_pdfs.py, lines 17-25) -/

/-- The character class removed by clean_filename's first substitution:
backslash, slash, star, question mark, colon, double quote, angle
brackets and pipe. -/
def illegalFilenameChar (c : Char) : Bool :=
  c = '\\' || c = '/' || c = '*' || c = '?' || c = ':' || c = '"' ||
    c = '<' || c = '>' || c = '|'

/-- Collapse each maximal run of characters satisfying `p` into one
underscore, the effect of substituting a single underscore for `p`-runs.
The flag records whether the scan is inside a run. -/
def collapseRun (p : Char → Bool) : List Char → Bool → List Char
  | [], _ => []
  | c :: t, inRun =>
    if p c then
      if inRun then collapseRun p t true else '_' :: collapseRun p t true
    else c :: collapseRun p t false

/-- `str.strip(underscore)`. -/
def stripUnderscores (l : List Char) : List Char :=
  ((l.dropWhile (fun c => c = '_')).reverse.dropWhile (fun c => c = '_')).reverse

/-- `cleaned[:100] if len(cleaned) > 100 else cleaned`. -/
def truncate100 (l : List Char) : List Char :=
  if l.length > 100 then l.take 100 else l

/-- clean_filename on a character list: drop filesystem-illegal
characters, substitute an underscore for each whitespace run, collapse
underscore runs, strip boundary underscores, truncate to 100. -/
def cleanChars (l : List Char) : List Char :=
  truncate100 (stripUnderscores
    (collapseRun (fun c => c = '_')
      (collapseRun isWsChar (l.filter (fun c => !illegalFilenameChar c)) false) false))

/-- clean_filename, the shared normalization function. -/
def clean_filename (s : String) : String := ⟨cleanChars s.data⟩

/-! ## The two key computations compared by claim C1

load_solutions (lines 130-151) splits a solution document on lines of
the form newline-hash-hash-space-title, takes header = part.strip(),
issue_name = header.lstrip(hash-space).strip() and stores the specific
entry under clean_filename(issue_name).  process_pdf_file (lines
272-274) looks a category up under clean_filename(title.strip()). -/

/-- The specific-solutions index key stored by load_solutions for the
sub-heading whose text after the hash-hash-space marker is `title`. -/
def headingIndexKey (title : String) : String :=
  let header := pyStrip ('\n' :: '#' :: '#' :: ' ' :: title.data)
  let issueName := pyStrip (header.dropWhile (fun c => c = '#' || c = ' '))
  ⟨cleanChars issueName⟩

/-- The lookup key process_pdf_file computes for a raw category title. -/
def categoryLookupKey (title : String) : String :=
  ⟨cleanChars (pyStrip title.data)⟩

theorem dropWhile_hashSpace_eq_dropSpaces {r : List Char}
    (h : (r.dropWhile (fun c => c = ' ')).head? ≠ some '#') :
    r.dropWhile (fun c => c = '#' || c = ' ') = r.dropWhile (fun c => c = ' ') := by
  induction r with
  | nil => rfl
  | cons c t ih =>
    by_cases hcs : c = ' '
    · subst hcs
      have h' : (t.dropWhile (fun c => c = ' ')).head? ≠ some '#' := by
        simpa [List.dropWhile_cons] using h
      simpa [List.dropWhile_cons] using ih h'
    · have hch : ¬ c = '#' := by
        intro hh
        apply h
        simp [List.dropWhile_cons, hcs, hh]
      simp [List.dropWhile_cons, hcs, hch]

theorem headingIssueName_eq_pyStrip (title : String)
    (h : ((title.data.dropWhile (fun c => c = ' ')).head? ≠ some '#')) :
    pyStrip ((pyStrip ('\n' :: '#' :: '#' :: ' ' :: title.data)).dropWhile
        (fun c => c = '#' || c = ' ')) =
      pyStrip title.data := by
  set l := title.data with hl
  have h1 : lstripWs ('\n' :: '#' :: '#' :: ' ' :: l) = '#' :: '#' :: ' ' :: l := by
    simp [lstripWs, List.dropWhile_cons, isWsChar]
  have h2 : pyStrip ('\n' :: '#' :: '#' :: ' ' :: l) =
      '#' :: '#' :: rstripWs (' ' :: l) := by
    unfold pyStrip
    rw [h1, rstripWs_cons_of_not_ws (by simp [isWsChar]),
      rstripWs_cons_of_not_ws (by simp [isWsChar])]
  rw [h2]
  have h3 : ('#' :: '#' :: rstripWs (' ' :: l)).dropWhile (fun c => c = '#' || c = ' ') =
      (rstripWs (' ' :: l)).dropWhile (fun c => c = '#' || c = ' ') := by
    simp [List.dropWhile_cons]
  rw [h3]
  rcases hr : rstripWs l with _ | ⟨d, r⟩
  · have hall : ∀ c ∈ l, isWsChar c := forall_ws_of_rstripWs_eq_nil hr
    have hm : rstripWs (' ' :: l) = [] :=
      rstripWs_cons_of_ws_of_nil (by simp [isWsChar]) hr
    rw [hm]
    have hls : lstripWs l = [] := lstripWs_eq_nil_of_forall_ws hall
    unfold pyStrip
    rw [hls]
    rfl
  · have hm : rstripWs (' ' :: l) = ' ' :: rstripWs l :=
      rstripWs_cons_of_ne_nil (by simp [hr])
    rw [hm, hr]
    have h4 : (' ' :: d :: r).dropWhile (fun c => c = '#' || c = ' ') =
        (d :: r).dropWhile (fun c => c = '#' || c = ' ') := by
      simp [List.dropWhile_cons]
    rw [h4, ← hr]
    have h5 : ((rstripWs l).dropWhile (fun c => c = ' ')).head? ≠ some '#' := by
      intro hh
      apply h
      obtain ⟨w, hw, hwall⟩ := exists_rstrip_decomposition l
      have hne : (rstripWs l).dropWhile (fun c => c = ' ') ≠ [] := by
        intro hnil
        rw [hnil] at hh
        exact Option.noConfusion hh
      calc (l.dropWhile (fun c => c = ' ')).head?
          = (((rstripWs l) ++ w).dropWhile (fun c => c = ' ')).head? := by rw [← hw]
        _ = (((rstripWs l).dropWhile (fun c => c = ' ')) ++ w).head? := by
            rw [dropWhile_append_of_ne_nil w hne]
        _ = ((rstripWs l).dropWhile (fun c => c = ' ')).head? := by
            rcases hd : (rstripWs l).dropWhile (fun c => c = ' ') with _ | ⟨e, s⟩
            · exact absurd hd hne
            · rfl
        _ = some '#' := hh
    rw [dropWhile_hashSpace_eq_dropSpaces h5, pyStrip_dropSpaces, pyStrip_rstrip]

/-- Claim C1 (amended): for every heading/category title whose leading
run of spaces is not followed by a hash character, the key stored for
the sub-heading with that text equals the key computed for the category
title at lookup time (and both are clean_filename of the stripped
title).  Without that proviso the claim fails: the heading extraction
additionally left-strips hash and space characters, see
c1_claim_counterexample. -/
theorem c1_normalization_roundtrip (title : String)
    (h : ((title.data.dropWhile (fun c => c = ' ')).head? ≠ some '#')) :
    headingIndexKey title = categoryLookupKey title := by
  unfold headingIndexKey categoryLookupKey
  dsimp only
  rw [headingIssueName_eq_pyStrip title h]

/-- Claim C1, witness for the amended theorem at the sample heading
used by the solution documents. -/
theorem c1_normalization_roundtrip_witness :
    ((("Cross-Site Scripting: DOM" : String).data.dropWhile
        (fun c => c = ' ')).head? ≠ some '#') ∧
      headingIndexKey "Cross-Site Scripting: DOM" =
        categoryLookupKey "Cross-Site Scripting: DOM" :=
  ⟨by decide, c1_normalization_roundtrip "Cross-Site Scripting: DOM" (by decide)⟩

/-- Claim C1, counterexample to the claim as stated: for the heading
text hash-x the stored key is "x" (the hash is eaten by lstrip) while
the lookup key for the same category title keeps the hash, so the two
keys differ and a valid specific match would be dropped. -/
theorem c1_claim_counterexample :
    headingIndexKey "#x" ≠ categoryLookupKey "#x" := by decide

/-! ## String-level wrappers -/

/-- `s.replace(n, r)` on strings. -/
def pyReplaceS (n r s : String) : String := ⟨pyReplace n.data r.data s.data⟩

/-- Python's `needle in hay`. -/
def containsS (hay needle : String) : Bool := listContains needle.data hay.data

/-- `s.lower()`. -/
def lowerS (s : String) : String := ⟨pyLower s.data⟩

/-! ## BranchResolver (actions/trigger_pipelines.py, find_fortify_branch,
lines 93-116)

The function receives the branch refs returned for the repository; each
loop iteration strips the "refs/heads/" prefix with `str.replace`.  A
name is marker-bearing when it contains "evergreen" and its
lower-casing contains "fortify".  The spec calls the no-result outcome
`BranchNotFoundError`; the embedding returns `none` for it. -/

/-- The marker test of lines 98-100. -/
def isFortifyBranchName (n : String) : Bool :=
  containsS n "evergreen" && containsS (lowerS n) "fortify"

/-- find_fortify_branch over the supplied refs (lines 96-116). -/
def find_fortify_branch (refs : List String) : Option String :=
  let names := refs.map (fun r => pyReplaceS "refs/heads/" "" r)
  let fortify_branches := names.filter isFortifyBranchName
  match fortify_branches with
  | b :: rest =>
    if "evergreen/fortify" ∈ b :: rest then some "evergreen/fortify" else some b
  | [] =>
    match names.find? (fun n => n == "evergreen/main") with
    | some _ => some "evergreen/main"
    | none => none

/-- The case analysis of find_fortify_branch, with the stripped names
and the marker-bearing sublist as local abbreviations. -/
theorem find_fortify_branch_cases (refs : List String) :
    let names := refs.map (fun r => pyReplaceS "refs/heads/" "" r)
    let mb := names.filter isFortifyBranchName
    ("evergreen/fortify" ∈ mb → find_fortify_branch refs = some "evergreen/fortify") ∧
    ("evergreen/fortify" ∉ mb → mb ≠ [] → find_fortify_branch refs = mb.head?) ∧
    (mb = [] → "evergreen/main" ∈ names → find_fortify_branch refs = some "evergreen/main") ∧
    (mb = [] → "evergreen/main" ∉ names → find_fortify_branch refs = none) := by
  intro names mb
  have hdef : find_fortify_branch refs =
      match mb with
      | b :: rest =>
        if "evergreen/fortify" ∈ b :: rest then some "evergreen/fortify" else some b
      | [] =>
        match names.find? (fun n => n == "evergreen/main") with
        | some _ => some "evergreen/main"
        | none => none := rfl
  refine ⟨?_, ?_, ?_, ?_⟩
  · intro hmem
    rcases hmb : mb with _ | ⟨b, rest⟩
    · rw [hmb] at hmem; exact absurd hmem (List.not_mem_nil _)
    · rw [hdef, hmb]
      rw [hmb] at hmem
      simp [hmem]
  · intro hnot hne
    rcases hmb : mb with _ | ⟨b, rest⟩
    · exact absurd hmb hne
    · rw [hdef, hmb]
      rw [hmb] at hnot
      simp [hnot]
  · intro hnil hmain
    rw [hdef, hnil]
    rcases hf : names.find? (fun n => n == "evergreen/main") with _ | x
    · exfalso
      rw [List.find?_eq_none] at hf
      have h0 := hf _ hmain
      simp at h0
    · rfl
  · intro hnil hmain
    rw [hdef, hnil]
    rcases hf : names.find? (fun n => n == "evergreen/main") with _ | x
    · rfl
    · have := List.find?_some hf
      have hx : x = "evergreen/main" := by simpa using this
      have hmem := List.mem_of_find?_eq_some hf
      rw [hx] at hmem
      exact absurd hmem hmain

/-- Claim C3: over any supplied branch list (`names` are the refs with
"refs/heads/" stripped, `mb` the marker-bearing names among them), (1)
if the exact name "evergreen/fortify" is among the marker-bearing names
it is returned; (2) otherwise the first marker-bearing name in supplied
order is returned; (3) with no marker-bearing name, "evergreen/main" is
returned when present; (4) and when neither exists the resolution fails
(returns none, the BranchNotFoundError outcome). -/
theorem c3_branch_resolution (refs names mb : List String)
    (hnames : names = refs.map (fun r => pyReplaceS "refs/heads/" "" r))
    (hmb : mb = names.filter isFortifyBranchName) :
    ("evergreen/fortify" ∈ mb → find_fortify_branch refs = some "evergreen/fortify") ∧
    ("evergreen/fortify" ∉ mb → mb ≠ [] → find_fortify_branch refs = mb.head?) ∧
    (mb = [] → "evergreen/main" ∈ names → find_fortify_branch refs = some "evergreen/main") ∧
    (mb = [] → "evergreen/main" ∉ names → find_fortify_branch refs = none) := by
  subst hmb
  subst hnames
  exact find_fortify_branch_cases refs

/-- Claim C3, witness: the spec's three samples, discharged through the
theorem: exact marker name wins, first other marker name wins, and a
bare "main" list resolves to nothing. -/
theorem c3_branch_resolution_witness :
    find_fortify_branch ["evergreen/main", "evergreen/fortify", "evergreen/fortify-old"] =
        some "evergreen/fortify" ∧
      find_fortify_branch ["evergreen/main", "evergreen/fix2025_fortify"] =
        some "evergreen/fix2025_fortify" ∧
      find_fortify_branch ["main"] = none :=
  ⟨(c3_branch_resolution ["evergreen/main", "evergreen/fortify", "evergreen/fortify-old"]
      _ _ rfl rfl).1 (by decide),
    by
      have h := (c3_branch_resolution ["evergreen/main", "evergreen/fix2025_fortify"]
        _ _ rfl rfl).2.1 (by decide) (by decide)
      simpa using h,
    (c3_branch_resolution ["main"] _ _ rfl rfl).2.2.2 (by decide) (by decide)⟩

/-! ## BuildSelector (actions/fetch_reports.py, get_latest_build_info,
lines 66-122, taking the path where the branch priority list is
supplied)

The CI interface returns the builds newest first; the code compares
each build's sourceBranch, with "refs/heads/" stripped, against the
priority names, falls back to the head build, and yields nothing when
the window is empty. -/

structure Build where
  id : Nat
  result : String
  finishTime : String
  sourceBranch : String
deriving DecidableEq

/-- `build.get(sourceBranch).replace(refs-heads, empty)` (line 108). -/
def buildBranch (b : Build) : String := pyReplaceS "refs/heads/" "" b.sourceBranch

/-- The nested loop of lines 106-111: first build matching the first
priority name that matches anything. -/
def findByPriority (branchNames : List String) (builds : List Build) : Option Build :=
  match branchNames with
  | [] => none
  | bn :: rest =>
    match builds.find? (fun b => buildBranch b == bn) with
    | some b => some b
    | none => findByPriority rest builds

/-- get_latest_build_info on a supplied priority list: the priority
scan, then the fallback to the newest build (line 114), and no result
on an empty window (line 122). -/
def get_latest_build_info (builds : List Build) (branchNames : List String) : Option Build :=
  match builds with
  | [] => none
  | b0 :: _ =>
    match findByPriority branchNames builds with
    | some b => some b
    | none => some b0

theorem findByPriority_eq_none {branchNames : List String} {builds : List Build}
    (h : ∀ b ∈ builds, buildBranch b ∉ branchNames) :
    findByPriority branchNames builds = none := by
  induction branchNames with
  | nil => rfl
  | cons bn rest ih =>
    have hf : builds.find? (fun b => buildBranch b == bn) = none := by
      rw [List.find?_eq_none]
      intro b hb
      simp only [beq_iff_eq]
      intro he
      exact h b hb (he ▸ List.mem_cons_self bn rest)
    rw [findByPriority, hf]
    exact ih (fun b hb hmem => h b hb (List.mem_cons_of_mem bn hmem))

/-- Claim C4: over a newest-first completed-build window and a branch
priority order, (1) an empty window selects nothing; (2) when no
build's branch is in the priority list the newest build (list head) is
selected; (3) when the priority order splits as pre, bn, post where no
name of pre matches any build and some build matches bn, the selector
returns the first build matching bn. -/
theorem c4_build_selection (builds : List Build) (priority : List String) :
    (builds = [] → get_latest_build_info builds priority = none) ∧
    (builds ≠ [] → (∀ b ∈ builds, buildBranch b ∉ priority) →
      get_latest_build_info builds priority = builds.head?) ∧
    (∀ pre bn post, priority = pre ++ bn :: post →
      (∀ bn' ∈ pre, ∀ b ∈ builds, buildBranch b ≠ bn') →
      (∃ b ∈ builds, buildBranch b = bn) →
      get_latest_build_info builds priority =
        builds.find? (fun b => buildBranch b == bn)) := by
  refine ⟨?_, ?_, ?_⟩
  · intro h
    rw [h]
    rfl
  · intro hne hall
    rcases builds with _ | ⟨b0, bs⟩
    · exact absurd rfl hne
    · rw [get_latest_build_info, findByPriority_eq_none hall]
      rfl
  · intro pre bn post hsplit hpre hex
    rcases hb : builds with _ | ⟨b0, bs⟩
    · rcases hex with ⟨b, hb', _⟩
      rw [hb] at hb'
      exact absurd hb' (List.not_mem_nil b)
    · rw [← hb, hsplit]
      have hrun : ∀ pre', (∀ bn' ∈ pre', ∀ b ∈ builds, buildBranch b ≠ bn') →
          findByPriority (pre' ++ bn :: post) builds =
            builds.find? (fun b => buildBranch b == bn) := by
        intro pre' hpre'
        induction pre' with
        | nil =>
          rcases hfind : builds.find? (fun b => buildBranch b == bn) with _ | b
          · rcases hex with ⟨b, hbmem, hbeq⟩
            rw [List.find?_eq_none] at hfind
            exact absurd (by simpa using hbeq) (by simpa using hfind b hbmem)
          · simp [findByPriority, hfind]
        | cons p ps ih =>
          have hf : builds.find? (fun b => buildBranch b == p) = none := by
            rw [List.find?_eq_none]
            intro b hbm
            simp only [beq_iff_eq]
            exact hpre' p (List.mem_cons_self p ps) b hbm
          rw [List.cons_append, findByPriority, hf]
          exact ih (fun bn' hmem b hbm => hpre' bn' (List.mem_cons_of_mem p hmem) b hbm)
      have hres := hrun pre hpre
      rw [hb] at hres ⊢
      rw [get_latest_build_info, hres]
      rcases hfind : (b0 :: bs).find? (fun b => buildBranch b == bn) with _ | b
      · rcases hex with ⟨b, hbmem, hbeq⟩
        rw [List.find?_eq_none] at hfind
        rw [hb] at hbmem
        exact absurd (by simpa using hbeq) (by simpa using hfind b hbmem)
      · rfl

/-- Claim C4, witness: a two-build newest-first window where the
priority branch matches the older build, plus the fallback and the
empty window, all through the theorem. -/
theorem c4_build_selection_witness :
    get_latest_build_info
        [⟨2, "succeeded", "t2", "refs/heads/evergreen/main"⟩,
          ⟨1, "partiallySucceeded", "t1", "refs/heads/evergreen/fortify"⟩]
        ["evergreen/fortify"] =
      some ⟨1, "partiallySucceeded", "t1", "refs/heads/evergreen/fortify"⟩ := by
  have h := (c4_build_selection
      [⟨2, "succeeded", "t2", "refs/heads/evergreen/main"⟩,
        ⟨1, "partiallySucceeded", "t1", "refs/heads/evergreen/fortify"⟩]
      ["evergreen/fortify"]).2.2 [] "evergreen/fortify" [] rfl
      (by intro bn' h'; exact absurd h' (List.not_mem_nil bn'))
      ⟨⟨1, "partiallySucceeded", "t1", "refs/heads/evergreen/fortify"⟩, by decide⟩
  rw [h]
  decide

/-! ## SolutionMatcher (actions/process_pdfs.py, get_severity_from_header
lines 166-176 and the lookup of lines 276-302) -/

/-- A specific-solution entry: content and source severity (the dict
stored by load_solutions, line 151). -/
structure SolutionInfo where
  content : String
  severity : String
deriving DecidableEq

/-- get_severity_from_header: the first of critical, high, medium, low
whose space-prefixed form occurs in the lower-cased header line. -/
def get_severity_from_header (headerLine : String) : Option String :=
  ["critical", "high", "medium", "low"].find?
    (fun sev => containsS (lowerS headerLine) (" " ++ sev))

/-- The kind of solution resolved for a category. -/
inductive MatchKind
  | specific
  | generic
  | none
deriving DecidableEq

/-- The lookup of lines 276-302: specific solutions checked first under
the normalized category title, then the generic solution for the
severity inferred from the header line, else nothing. -/
def matchSolution (generic : List (String × String))
    (specific : List (String × SolutionInfo))
    (categoryName headerLine : String) : Option String × MatchKind :=
  match List.lookup (clean_filename categoryName) specific with
  | some info => (some info.content, MatchKind.specific)
  | Option.none =>
    match get_severity_from_header headerLine with
    | some sev =>
      match List.lookup sev generic with
      | some content => (some content, MatchKind.generic)
      | Option.none => (Option.none, MatchKind.none)
    | Option.none => (Option.none, MatchKind.none)

/-- Claim C6: the lookup priority law.  (1) a specific entry under the
normalized title wins, whatever the generic index holds; (2) otherwise
a generic entry under the severity inferred from the header line is
returned; (3) otherwise the result is absent with kind none (also when
a severity was inferred but has no generic entry). -/
theorem c6_solution_match_priority (generic : List (String × String))
    (specific : List (String × SolutionInfo)) (categoryName headerLine : String) :
    (∀ info, List.lookup (clean_filename categoryName) specific = some info →
      matchSolution generic specific categoryName headerLine =
        (some info.content, MatchKind.specific)) ∧
    (List.lookup (clean_filename categoryName) specific = Option.none →
      ∀ sev content, get_severity_from_header headerLine = some sev →
        List.lookup sev generic = some content →
        matchSolution generic specific categoryName headerLine =
          (some content, MatchKind.generic)) ∧
    (List.lookup (clean_filename categoryName) specific = Option.none →
      (∀ sev, get_severity_from_header headerLine = some sev →
        List.lookup sev generic = Option.none) →
      matchSolution generic specific categoryName headerLine =
        (Option.none, MatchKind.none)) := by
  refine ⟨?_, ?_, ?_⟩
  · intro info hinfo
    unfold matchSolution
    rw [hinfo]
  · intro hnone sev content hsev hcontent
    simp only [matchSolution, hnone, hsev]
    rw [hcontent]
  · intro hnone hgen
    simp only [matchSolution, hnone]
    rcases hsev : get_severity_from_header headerLine with _ | sev
    · rfl
    · dsimp only
      rw [hgen sev hsev]

/-- Claim C6, witness: a category that has both a specific entry and a
matching generic entry resolves to the specific one. -/
theorem c6_solution_match_priority_witness :
    List.lookup (clean_filename "SQL Injection")
        [("SQL_Injection", SolutionInfo.mk "use bind variables" "high")] =
      some (SolutionInfo.mk "use bind variables" "high") ∧
    matchSolution [("high", "generic advice")]
        [("SQL_Injection", SolutionInfo.mk "use bind variables" "high")]
        "SQL Injection" "Category: SQL Injection (1 Issues, 1 High)" =
      (some "use bind variables", MatchKind.specific) :=
  ⟨by decide,
    (c6_solution_match_priority [("high", "generic advice")]
      [("SQL_Injection", SolutionInfo.mk "use bind variables" "high")]
      "SQL Injection" "Category: SQL Injection (1 Issues, 1 High)").1
      (SolutionInfo.mk "use bind variables" "high") (by decide)⟩

/-! ## Decimal rendering of build identifiers

fetch_reports line 222 compares `str(latest_build_id)` with
`str(last_downloaded_build)`; the stored value is an integer, or None
when the project was never downloaded.  The embedding uses Lean's
decimal rendering of `Nat` for `str(int)`; the lemmas below show it is
injective and never collides with "None". -/

/-- Numeric value of a decimal digit character. -/
def digitVal (c : Char) : Nat := c.toNat - 48

/-- Value of a decimal digit string, most significant first. -/
def valDec (l : List Char) : Nat := l.foldl (fun a c => 10 * a + digitVal c) 0

theorem valDec_append_digit (x : List Char) (d : Char) :
    valDec (x ++ [d]) = 10 * valDec x + digitVal d := by
  unfold valDec
  rw [List.foldl_append]
  rfl

theorem digitVal_digitChar : ∀ k, k < 10 → digitVal (Nat.digitChar k) = k := by decide

theorem digitChar_isDigit : ∀ k, k < 10 → (Nat.digitChar k).isDigit = true := by decide

theorem ge_ten_of_div_ten_ne_zero {n : Nat} (h0 : n / 10 ≠ 0) : 10 ≤ n := by
  by_contra hlt
  push_neg at hlt
  exact h0 (Nat.div_eq_of_lt hlt)

theorem toDigitsCore_append (n : Nat) : ∀ f l, n < f →
    Nat.toDigitsCore 10 f n l = Nat.toDigitsCore 10 f n [] ++ l := by
  induction n using Nat.strong_induction_on with
  | _ n ih =>
    intro f l hf
    rcases f with _ | f'
    · omega
    · by_cases h0 : n / 10 = 0
      · simp [Nat.toDigitsCore, h0]
      · have h10 : 10 ≤ n := ge_ten_of_div_ten_ne_zero h0
        have hdiv_lt : n / 10 < n := Nat.div_lt_self (by omega) (by omega)
        have hdiv_f : n / 10 < f' := by omega
        simp only [Nat.toDigitsCore, h0, if_false]
        rw [ih (n / 10) hdiv_lt f' (Nat.digitChar (n % 10) :: l) hdiv_f,
          ih (n / 10) hdiv_lt f' [Nat.digitChar (n % 10)] hdiv_f,
          List.append_assoc, List.singleton_append]

theorem valDec_toDigitsCore (n : Nat) : ∀ f, n < f →
    valDec (Nat.toDigitsCore 10 f n []) = n := by
  induction n using Nat.strong_induction_on with
  | _ n ih =>
    intro f hf
    rcases f with _ | f'
    · omega
    · by_cases h0 : n / 10 = 0
      · have hn : n < 10 := by
          by_contra hge
          push_neg at hge
          have : 1 ≤ n / 10 := (Nat.le_div_iff_mul_le (by omega)).mpr (by omega)
          omega
        have hmod : n % 10 = n := Nat.mod_eq_of_lt hn
        simp only [Nat.toDigitsCore, h0, if_true, ite_true]
        show valDec [Nat.digitChar (n % 10)] = n
        have : valDec [Nat.digitChar (n % 10)] = digitVal (Nat.digitChar (n % 10)) := by
          unfold valDec
          simp [List.foldl]
        rw [this, hmod, digitVal_digitChar n hn]
      · have h10 : 10 ≤ n := ge_ten_of_div_ten_ne_zero h0
        have hdiv_lt : n / 10 < n := Nat.div_lt_self (by omega) (by omega)
        have hdiv_f : n / 10 < f' := by omega
        simp only [Nat.toDigitsCore, h0, if_false]
        rw [toDigitsCore_append (n / 10) f' [Nat.digitChar (n % 10)] hdiv_f,
          valDec_append_digit, ih (n / 10) hdiv_lt f' hdiv_f,
          digitVal_digitChar (n % 10) (Nat.mod_lt n (by omega))]
        omega

theorem toDigitsCore_all_digits (f : Nat) : ∀ n l,
    (∀ c ∈ l, c.isDigit = true) →
    ∀ c ∈ Nat.toDigitsCore 10 f n l, c.isDigit = true := by
  induction f with
  | zero => intro n l hl c hc; exact hl c hc
  | succ f' ih =>
    intro n l hl c hc
    have hd : ∀ c ∈ Nat.digitChar (n % 10) :: l, c.isDigit = true := by
      intro e he
      rcases List.mem_cons.mp he with he | he
      · rw [he]; exact digitChar_isDigit (n % 10) (Nat.mod_lt n (by omega))
      · exact hl e he
    by_cases h0 : n / 10 = 0
    · simp only [Nat.toDigitsCore, h0, if_true, ite_true] at hc
      exact hd c hc
    · simp only [Nat.toDigitsCore, h0, if_false] at hc
      exact ih (n / 10) (Nat.digitChar (n % 10) :: l) hd c hc

theorem toString_nat_ne_none (n : Nat) : toString n ≠ "None" := by
  intro h
  have hdata : (toString n).data = Nat.toDigitsCore 10 (n + 1) n [] := rfl
  have hN : 'N' ∈ (toString n).data := by
    rw [h]
    decide
  have hdig : ('N' : Char).isDigit = true := by
    rw [hdata] at hN
    exact toDigitsCore_all_digits (n + 1) n [] (by intro c hc; cases hc) 'N' hN
  exact absurd hdig (by decide)

theorem toString_nat_inj {m n : Nat} (h : toString m = toString n) : m = n := by
  have hd : Nat.toDigitsCore 10 (m + 1) m [] = Nat.toDigitsCore 10 (n + 1) n [] :=
    congrArg String.data h
  have hm := valDec_toDigitsCore m (m + 1) (Nat.lt_succ_self m)
  have hn := valDec_toDigitsCore n (n + 1) (Nat.lt_succ_self n)
  rw [← hm, ← hn, hd]

/-! ## DownloadStateTracker (actions/fetch_reports.py, lines 214-254)

The download state is a JSON object mapping project name to last-acted
build id, embedded as an association list with the first binding for a
key authoritative. -/

/-- Python dict assignment `d[k] = v` over an association list whose
first binding for a key is authoritative. -/
def dictSet {α : Type} (s : List (String × α)) (k : String) (v : α) :
    List (String × α) :=
  match s with
  | [] => [(k, v)]
  | (k', v') :: t => if k' == k then (k, v) :: t else (k', v') :: dictSet t k v

/-- `str(None)` / `str(stored-int)` as compared on line 222. -/
def pyStrOptNat : Option Nat → String
  | Option.none => "None"
  | some n => toString n

/-- The skip decision of line 222:
`str(latest_build_id) == str(last_downloaded_build)` with
`last_downloaded_build = state.get(repo_name)`. -/
def shouldSkip (state : List (String × Nat)) (repo : String) (latest : Nat) : Bool :=
  toString latest == pyStrOptNat (List.lookup repo state)

/-- The persist step after a successful download (lines 252-253). -/
def persistDownload (state : List (String × Nat)) (repo : String) (latest : Nat) :
    List (String × Nat) :=
  dictSet state repo latest

theorem lookup_dictSet_self {α : Type} (s : List (String × α)) (k : String) (v : α) :
    List.lookup k (dictSet s k v) = some v := by
  induction s with
  | nil => simp [dictSet, List.lookup]
  | cons p t ih =>
    rcases p with ⟨k', v'⟩
    by_cases hk : k' = k
    · subst hk
      simp [dictSet, List.lookup]
    · simp only [dictSet, beq_iff_eq, hk, if_false, ite_false, List.lookup]
      have hke : (k == k') = false := by
        simp only [beq_eq_false_iff_ne]
        exact fun he => hk he.symm
      rw [hke]
      exact ih

/-- Claim C7: the tracker skips exactly when the stored identifier for
the project equals the latest build id (plain equality; an absent
record never skips because str-of-None is not a decimal numeral), and
after persisting the latest id a second decision for the same pair
skips (idempotence). -/
theorem c7_download_state_tracker (state : List (String × Nat)) (repo : String)
    (latest : Nat) :
    (shouldSkip state repo latest = true ↔ List.lookup repo state = some latest) ∧
    shouldSkip (persistDownload state repo latest) repo latest = true := by
  constructor
  · unfold shouldSkip
    rcases hl : List.lookup repo state with _ | b
    · simp only [pyStrOptNat, beq_iff_eq]
      constructor
      · intro h
        exact absurd h (toString_nat_ne_none latest)
      · intro h
        exact absurd h (by intro hc; cases hc)
    · simp only [pyStrOptNat, beq_iff_eq]
      constructor
      · intro h
        rw [toString_nat_inj h]
      · intro h
        have hb : b = latest := by
          injection h
        rw [hb]
  · unfold shouldSkip persistDownload
    rw [lookup_dictSet_self]
    simp [pyStrOptNat]

/-- Claim C7, witness: persisting build 41 for a fresh project makes the
next decision for the same pair skip, via the theorem. -/
theorem c7_download_state_tracker_witness :
    shouldSkip (persistDownload [] "alpha-service" 41) "alpha-service" 41 = true :=
  (c7_download_state_tracker [] "alpha-service" 41).2

/-! ## CacheManager (utils/cache_manager.py)

One field per cache file; a field is `Option.none` when the file does
not exist (or cannot be read).  The three timestamped regions carry a
top-level last_updated and opaque per-project payload blobs; per-entry
timestamps are folded into the blobs, which no claim inspects.  Every
mutating method of the class becomes one constructor of `CacheOp`;
`now` is the wall clock passed explicitly. -/

/-- Content of one of the three timestamped cache files. -/
structure RegionCache where
  last_updated : Option Int
  projects : List (String × String)
deriving DecidableEq

/-- Contents of the four cache files managed by CacheManager. -/
structure CacheState where
  downloadState : Option (List (String × Nat))
  pipeline : Option RegionCache
  scanResults : Option RegionCache
  branchInfo : Option RegionCache
deriving DecidableEq

/-- The default returned by the load methods when a file is missing:
last_updated None and an empty projects map. -/
def emptyRegion : RegionCache := RegionCache.mk Option.none []

/-- The mutating operations of CacheManager. -/
inductive CacheOp where
  | saveDownloadState (st : List (String × Nat))
  | savePipelineCache (projects : List (String × String))
  | saveScanResultsCache (projects : List (String × String))
  | saveBranchInfoCache (projects : List (String × String))
  | updatePipelineProject (name entry : String)
  | updateProjectBranchInfo (name entry : String)
  | clearCache (cacheType : Option String)

/-- State transition of each CacheManager method.  clear_cache (lines
192-208) with None or "all" unlinks the pipeline, scan-results and
branch-info files; the named variants unlink one file; the download
state file is in no unlink list. -/
def applyCacheOp (now : Int) : CacheOp → CacheState → CacheState
  | CacheOp.saveDownloadState st, s => { s with downloadState := some st }
  | CacheOp.savePipelineCache ps, s =>
    { s with pipeline := some (RegionCache.mk (some now) ps) }
  | CacheOp.saveScanResultsCache ps, s =>
    { s with scanResults := some (RegionCache.mk (some now) ps) }
  | CacheOp.saveBranchInfoCache ps, s =>
    { s with branchInfo := some (RegionCache.mk (some now) ps) }
  | CacheOp.updatePipelineProject name entry, s =>
    let cache := s.pipeline.getD emptyRegion
    { s with pipeline := some (RegionCache.mk (some now) (dictSet cache.projects name entry)) }
  | CacheOp.updateProjectBranchInfo name entry, s =>
    let cache := s.branchInfo.getD emptyRegion
    { s with branchInfo := some (RegionCache.mk (some now) (dictSet cache.projects name entry)) }
  | CacheOp.clearCache cacheType, s =>
    match cacheType with
    | Option.none =>
      { s with pipeline := Option.none, scanResults := Option.none, branchInfo := Option.none }
    | some t =>
      if t == "all" then
        { s with pipeline := Option.none, scanResults := Option.none, branchInfo := Option.none }
      else if t == "pipeline" then { s with pipeline := Option.none }
      else if t == "scan_results" then { s with scanResults := Option.none }
      else if t == "branch_info" then { s with branchInfo := Option.none }
      else s

/-- Freshness of one timestamped region: False when the file or its
last_updated stamp is absent, else the age test
(now - last)/3600 < max_age_hours, cleared of the division. -/
def regionFresh (r : Option RegionCache) (maxAgeHours : Nat) (now : Int) : Bool :=
  match (r.getD emptyRegion).last_updated with
  | Option.none => false
  | some t => decide (now - t < (maxAgeHours : Int) * 3600)

/-- is_cache_fresh (lines 169-190): only the three named regions have a
freshness notion; every other cache_type string returns False. -/
def is_cache_fresh (s : CacheState) (cacheType : String) (maxAgeHours : Nat)
    (now : Int) : Bool :=
  if cacheType == "pipeline" then regionFresh s.pipeline maxAgeHours now
  else if cacheType == "scan_results" then regionFresh s.scanResults maxAgeHours now
  else if cacheType == "branch_info" then regionFresh s.branchInfo maxAgeHours now
  else false

theorem clearCache_preserves_downloadState (now : Int) (ct : Option String)
    (s : CacheState) :
    (applyCacheOp now (CacheOp.clearCache ct) s).downloadState = s.downloadState := by
  rcases ct with _ | t
  · rfl
  · simp only [applyCacheOp]
    split_ifs <;> rfl

theorem clearCache_all_clears (now : Int) (s : CacheState) :
    applyCacheOp now (CacheOp.clearCache (some "all")) s =
      { s with pipeline := Option.none, scanResults := Option.none, branchInfo := Option.none } := by
  simp only [applyCacheOp]
  rw [if_pos]
  decide

/-- Claim C9 (amended): the download-state record survives every
operation of the cache layer.  (1) every operation other than
save_download_state leaves the stored download state bit-for-bit
unchanged — including clear_cache, for every argument; (2) no operation
deletes it: if it exists it still exists afterwards; (3) a clear of all
regions removes the pipeline, scan-results and branch-info regions but
does not remove the download state (contrary to the claim as stated,
see c9_claim_counterexample). -/
theorem c9_download_state_never_deleted (now : Int) (op : CacheOp) (s : CacheState) :
    ((∀ st, op ≠ CacheOp.saveDownloadState st) →
      (applyCacheOp now op s).downloadState = s.downloadState) ∧
    (∀ d, s.downloadState = some d →
      ∃ d', (applyCacheOp now op s).downloadState = some d') ∧
    ((applyCacheOp now (CacheOp.clearCache (some "all")) s).pipeline = Option.none ∧
      (applyCacheOp now (CacheOp.clearCache (some "all")) s).scanResults = Option.none ∧
      (applyCacheOp now (CacheOp.clearCache (some "all")) s).branchInfo = Option.none ∧
      (applyCacheOp now (CacheOp.clearCache (some "all")) s).downloadState =
        s.downloadState) := by
  refine ⟨?_, ?_, ?_, ?_, ?_, ?_⟩
  · intro hne
    cases op with
    | saveDownloadState st => exact absurd rfl (hne st)
    | savePipelineCache ps => rfl
    | saveScanResultsCache ps => rfl
    | saveBranchInfoCache ps => rfl
    | updatePipelineProject name entry => rfl
    | updateProjectBranchInfo name entry => rfl
    | clearCache ct => exact clearCache_preserves_downloadState now ct s
  · intro d hd
    cases op with
    | saveDownloadState st => exact ⟨st, rfl⟩
    | savePipelineCache ps => exact ⟨d, hd⟩
    | saveScanResultsCache ps => exact ⟨d, hd⟩
    | saveBranchInfoCache ps => exact ⟨d, hd⟩
    | updatePipelineProject name entry => exact ⟨d, hd⟩
    | updateProjectBranchInfo name entry => exact ⟨d, hd⟩
    | clearCache ct =>
      exact ⟨d, (clearCache_preserves_downloadState now ct s).trans hd⟩
  · rw [clearCache_all_clears]
  · rw [clearCache_all_clears]
  · rw [clearCache_all_clears]
  · exact clearCache_preserves_downloadState now (some "all") s

/-- Claim C9, counterexample to the claim as stated: with all four
cache files present, clearing all cache regions leaves the stored
download state in place rather than removing it. -/
theorem c9_claim_counterexample :
    ¬ ((applyCacheOp 0 (CacheOp.clearCache (some "all"))
        (CacheState.mk (some [("alpha", 7)]) (some (RegionCache.mk (some 0) []))
          (some (RegionCache.mk (some 0) []))
          (some (RegionCache.mk (some 0) [])))).downloadState = Option.none) ∧
      (applyCacheOp 0 (CacheOp.clearCache (some "all"))
        (CacheState.mk (some [("alpha", 7)]) (some (RegionCache.mk (some 0) []))
          (some (RegionCache.mk (some 0) []))
          (some (RegionCache.mk (some 0) [])))).downloadState = some [("alpha", 7)] := by
  rw [clearCache_all_clears]
  constructor
  · intro h
    cases h
  · rfl

/-- Claim C9, witness: a clear of everything leaves a concrete stored
download state in place, via the amended theorem. -/
theorem c9_download_state_never_deleted_witness :
    (applyCacheOp 0 (CacheOp.clearCache Option.none)
      (CacheState.mk (some [("beta", 3)]) Option.none Option.none
        Option.none)).downloadState = some [("beta", 3)] := by
  have h := (c9_download_state_never_deleted 0 (CacheOp.clearCache Option.none)
    (CacheState.mk (some [("beta", 3)]) Option.none Option.none Option.none)).1
    (fun st hst => CacheOp.noConfusion hst)
  rw [h]

/-- Claim C10: for every cache-type string other than the three named
regions — in particular for the download-state region — is_cache_fresh
returns False whatever the state, the age bound and the clock. -/
theorem c10_freshness_other_regions (s : CacheState) (cacheType : String)
    (maxAgeHours : Nat) (now : Int)
    (h1 : cacheType ≠ "pipeline") (h2 : cacheType ≠ "scan_results")
    (h3 : cacheType ≠ "branch_info") :
    is_cache_fresh s cacheType maxAgeHours now = false := by
  unfold is_cache_fresh
  rw [if_neg (by simpa using h1), if_neg (by simpa using h2),
    if_neg (by simpa using h3)]

/-! ## AggregationReporter (actions/process_pdfs.py,
generate_global_summary, lines 341-377)

The per-issue records carried over from process_pdf_file.  The summary
dict keyed by raw category name becomes an association list in
insertion order; the Python set of affected projects becomes an
insert-if-absent list. -/

/-- One row of issue_summary_data (lines 304-308). -/
structure IssueData where
  index : Nat
  category_name : String
  solution_status : String
deriving DecidableEq

/-- One element of all_projects_data. -/
structure ProjectData where
  project_name : String
  issues : List IssueData
deriving DecidableEq

/-- One value of the global_summary dict (line 349). -/
structure GroupStats where
  count : Nat
  projects : List String
  solution : String
deriving DecidableEq

/-- `s.split(chr(32))[0]` (lines 373-374). -/
def statusKey (s : String) : String := ⟨s.data.takeWhile (fun c => c != ' ')⟩

/-- solution_priority.get(key, 0) with the dict of lines 352-357. -/
def solutionPriority (k : String) : Nat :=
  if k == "解法附加失敗" then 0
  else if k == "無對應解法" then 1
  else if k == "通用解法" then 2
  else if k == "專屬解法" then 3
  else 0

/-- The defaultdict initial value (line 349). -/
def defaultStats : GroupStats := GroupStats.mk 0 [] "無對應解法"

/-- Python set add, as insert-if-absent. -/
def addProject (ps : List String) (p : String) : List String :=
  if p ∈ ps then ps else ps ++ [p]

/-- The loop body for one (project, issue) pair (lines 365-377). -/
def updateStats (g : GroupStats) (project : String) (issue : IssueData) : GroupStats :=
  GroupStats.mk (g.count + 1) (addProject g.projects project)
    (if solutionPriority (statusKey issue.solution_status) >
        solutionPriority (statusKey g.solution)
      then issue.solution_status else g.solution)

/-- One defaultdict update of global_summary. -/
def summaryStep (summary : List (String × GroupStats)) (project : String)
    (issue : IssueData) : List (String × GroupStats) :=
  match List.lookup issue.category_name summary with
  | some g => dictSet summary issue.category_name (updateStats g project issue)
  | Option.none => summary ++ [(issue.category_name, updateStats defaultStats project issue)]

/-- The nested loops of lines 359-377. -/
def generate_global_summary (all : List ProjectData) : List (String × GroupStats) :=
  all.foldl
    (fun acc pd => pd.issues.foldl (fun acc2 issue => summaryStep acc2 pd.project_name issue) acc)
    []

/-- The (project, issue) pairs in iteration order. -/
def projectIssuePairs (all : List ProjectData) : List (String × IssueData) :=
  all.flatMap (fun pd => pd.issues.map (fun i => (pd.project_name, i)))

/-- The statuses observed for a category, in iteration order. -/
def observedStatuses (all : List ProjectData) (c : String) : List String :=
  ((projectIssuePairs all).filter (fun pi => pi.2.category_name == c)).map
    (fun pi => pi.2.solution_status)

/-- The solution recorded for a category, the defaultdict default when
the category has no row. -/
def groupSolution (o : Option GroupStats) : String :=
  match o with
  | Option.none => "無對應解法"
  | some g => g.solution

/-- Folding the per-pair step, the flattened form of the nested loops. -/
def foldPairs (pairs : List (String × IssueData))
    (acc : List (String × GroupStats)) : List (String × GroupStats) :=
  pairs.foldl (fun a pi => summaryStep a pi.1 pi.2) acc

theorem foldPairs_append (xs ys : List (String × IssueData))
    (acc : List (String × GroupStats)) :
    foldPairs (xs ++ ys) acc = foldPairs ys (foldPairs xs acc) := by
  unfold foldPairs
  rw [List.foldl_append]

theorem issues_foldl_eq_foldPairs (p : String) (issues : List IssueData)
    (acc : List (String × GroupStats)) :
    issues.foldl (fun a i => summaryStep a p i) acc =
      foldPairs (issues.map (fun i => (p, i))) acc := by
  induction issues generalizing acc with
  | nil => rfl
  | cons i t ih =>
    simp only [List.foldl_cons, List.map_cons, foldPairs]
    exact ih (summaryStep acc p i)

theorem generate_global_summary_eq_foldPairs (all : List ProjectData) :
    generate_global_summary all = foldPairs (projectIssuePairs all) [] := by
  unfold generate_global_summary projectIssuePairs
  generalize ([] : List (String × GroupStats)) = acc
  induction all generalizing acc with
  | nil => rfl
  | cons pd rest ih =>
    simp only [List.foldl_cons, List.flatMap_cons, foldPairs_append]
    rw [ih, issues_foldl_eq_foldPairs]

theorem lookup_dictSet_other {α : Type} (s : List (String × α)) {c k : String}
    (h : c ≠ k) (v : α) : List.lookup c (dictSet s k v) = List.lookup c s := by
  induction s with
  | nil =>
    simp only [dictSet, List.lookup]
    rw [show (c == k) = false by simpa using h]
  | cons p t ih =>
    rcases p with ⟨k', v'⟩
    by_cases hk : k' = k
    · subst hk
      simp only [dictSet, beq_self_eq_true, if_true, ite_true, List.lookup]
      rw [show (c == k') = false by simpa using h]
    · simp only [dictSet, beq_iff_eq, hk, if_false, ite_false, List.lookup]
      rcases hck : c == k' with _ | _
      · exact ih
      · rfl

theorem lookup_append_none {α : Type} {l1 : List (String × α)} (l2 : List (String × α))
    {c : String} (h : List.lookup c l1 = Option.none) :
    List.lookup c (l1 ++ l2) = List.lookup c l2 := by
  induction l1 with
  | nil => rfl
  | cons p t ih =>
    rcases p with ⟨k, v⟩
    simp only [List.lookup, List.cons_append] at h ⊢
    rcases hck : c == k with _ | _
    · rw [hck] at h
      exact ih h
    · rw [hck] at h
      cases h

theorem lookup_append_some {α : Type} {l1 : List (String × α)} (l2 : List (String × α))
    {c : String} {g : α} (h : List.lookup c l1 = some g) :
    List.lookup c (l1 ++ l2) = some g := by
  induction l1 with
  | nil => cases h
  | cons p t ih =>
    rcases p with ⟨k, v⟩
    simp only [List.lookup, List.cons_append] at h ⊢
    rcases hck : c == k with _ | _
    · rw [hck] at h
      exact ih h
    · rw [hck] at h
      exact h

theorem summaryStep_other (acc : List (String × GroupStats)) (p : String)
    (i : IssueData) {c : String} (h : i.category_name ≠ c) :
    List.lookup c (summaryStep acc p i) = List.lookup c acc := by
  unfold summaryStep
  rcases hl : List.lookup i.category_name acc with _ | g
  · rcases hc : List.lookup c acc with _ | g0
    · rw [lookup_append_none _ hc]
      simp only [List.lookup]
      rw [show (c == i.category_name) = false by simpa using fun he => h he.symm]
    · rw [lookup_append_some _ hc]
  · exact lookup_dictSet_other acc (fun he => h he.symm) _

theorem summaryStep_same (acc : List (String × GroupStats)) (p : String)
    (i : IssueData) {c : String} (h : i.category_name = c) :
    groupSolution (List.lookup c (summaryStep acc p i)) =
      (if solutionPriority (statusKey i.solution_status) >
          solutionPriority (statusKey (groupSolution (List.lookup c acc)))
        then i.solution_status else groupSolution (List.lookup c acc)) := by
  unfold summaryStep
  subst h
  rcases hl : List.lookup i.category_name acc with _ | g
  · rw [lookup_append_none _ hl]
    simp only [List.lookup, beq_self_eq_true]
    rfl
  · rw [lookup_dictSet_self]
    rfl

/-- The running maximum of status priorities. -/
def maxPriority (start : Nat) (statuses : List String) : Nat :=
  statuses.foldl (fun a s => max a (solutionPriority (statusKey s))) start

theorem foldPairs_solution (pairs : List (String × IssueData)) (c : String) :
    ∀ acc : List (String × GroupStats),
      solutionPriority (statusKey (groupSolution (List.lookup c (foldPairs pairs acc)))) =
        maxPriority (solutionPriority (statusKey (groupSolution (List.lookup c acc))))
          ((pairs.filter (fun pi => pi.2.category_name == c)).map
            (fun pi => pi.2.solution_status)) ∧
      (groupSolution (List.lookup c (foldPairs pairs acc)) =
          groupSolution (List.lookup c acc) ∨
        groupSolution (List.lookup c (foldPairs pairs acc)) ∈
          (pairs.filter (fun pi => pi.2.category_name == c)).map
            (fun pi => pi.2.solution_status)) := by
  induction pairs with
  | nil => intro acc; exact ⟨rfl, Or.inl rfl⟩
  | cons pi rest ih =>
    intro acc
    rcases pi with ⟨p, i⟩
    by_cases hc : i.category_name = c
    · have hstep := summaryStep_same acc p i hc
      have hfil : ((p, i) :: rest).filter (fun pi => pi.2.category_name == c) =
          (p, i) :: rest.filter (fun pi => pi.2.category_name == c) := by
        rw [List.filter_cons, if_pos (by simpa using hc)]
      have hfold : foldPairs ((p, i) :: rest) acc = foldPairs rest (summaryStep acc p i) := rfl
      rcases ih (summaryStep acc p i) with ⟨ihp, ihm⟩
      constructor
      · rw [hfold, ihp, hstep, hfil]
        simp only [List.map_cons, maxPriority, List.foldl_cons]
        congr 1
        by_cases hgt : solutionPriority (statusKey i.solution_status) >
            solutionPriority (statusKey (groupSolution (List.lookup c acc)))
        · rw [if_pos hgt]
          omega
        · rw [if_neg hgt]
          omega
      · rw [hfold, hfil]
        simp only [List.map_cons]
        rcases ihm with hm | hm
        · rw [hm, hstep]
          by_cases hgt : solutionPriority (statusKey i.solution_status) >
              solutionPriority (statusKey (groupSolution (List.lookup c acc)))
          · rw [if_pos hgt]
            exact Or.inr (List.mem_cons_self _ _)
          · rw [if_neg hgt]
            exact Or.inl rfl
        · exact Or.inr (List.mem_cons_of_mem _ hm)
    · have hstep := summaryStep_other acc p i hc
      have hfil : ((p, i) :: rest).filter (fun pi => pi.2.category_name == c) =
          rest.filter (fun pi => pi.2.category_name == c) := by
        rw [List.filter_cons, if_neg (by simpa using hc)]
      have hfold : foldPairs ((p, i) :: rest) acc = foldPairs rest (summaryStep acc p i) := rfl
      rcases ih (summaryStep acc p i) with ⟨ihp, ihm⟩
      constructor
      · rw [hfold, ihp, hstep, hfil]
      · rw [hfold, hfil]
        rcases ihm with hm | hm
        · rw [hm, hstep]
          exact Or.inl rfl
        · exact Or.inr hm

/-- Claim C2 (amended): in the global summary, the solution status kept
for a category is the highest-priority status among the default
no-solution status and the statuses observed for that category, under
the priority order of the CODE: attach-failed (0) below no-solution
(1) below generic (2) below specific (3), statuses compared by their
first space-separated word; and the kept status is either the default
or one of the observed statuses.  The claim's order (none below
attach-failed) does not hold: an attach-failed status never replaces
the none default, see c2_claim_counterexample. -/
theorem c2_aggregation_best_status (all : List ProjectData) (c : String) :
    solutionPriority (statusKey (groupSolution
        (List.lookup c (generate_global_summary all)))) =
      maxPriority 1 (observedStatuses all c) ∧
    (groupSolution (List.lookup c (generate_global_summary all)) = "無對應解法" ∨
      groupSolution (List.lookup c (generate_global_summary all)) ∈
        observedStatuses all c) := by
  rw [generate_global_summary_eq_foldPairs]
  rcases foldPairs_solution (projectIssuePairs all) c [] with ⟨hp, hm⟩
  exact ⟨hp, hm⟩

/-- Claim C2, counterexample to the claim as stated: a category whose
single issue carries the attach-failed status keeps the no-solution
default in the global summary — under the claim's order
none < attach-failed the kept status would have to be the attach-failed
status, the only (and hence highest-priority) status observed. -/
theorem c2_claim_counterexample :
    List.lookup "Path Manipulation"
        (generate_global_summary
          [ProjectData.mk "proj1" [IssueData.mk 1 "Path Manipulation" "解法附加失敗"]]) =
      some (GroupStats.mk 1 ["proj1"] "無對應解法") ∧
    ("無對應解法" : String) ≠ "解法附加失敗" := by
  constructor
  · rfl
  · decide

/-! ## Evidence reformatting and counts (actions/process_pdfs.py,
format_content_for_markdown lines 28-51 and the counting of lines
254-259) -/

/-- The code-fence line appended around evidence blocks. -/
def fenceLine : List Char := ("```" : String).data

/-- The evidence markers counted on lines 257-258. -/
def srcMarker : List Char := ("Source:" : String).data

/-- The sink marker. -/
def sinkMarker : List Char := ("Sink:" : String).data

/-- The line loop of format_content_for_markdown: a stripped line
beginning with a marker closes any open block and opens a new one; a
blank stripped line closes an open block; a trailing open block is
closed at the end. -/
def fmtGo : List (List Char) → Bool → List (List Char)
  | [], inCode => if inCode then [fenceLine] else []
  | ln :: ls, inCode =>
    let s := pyStrip ln
    if srcMarker.isPrefixOf s || sinkMarker.isPrefixOf s then
      (if inCode then [fenceLine] else []) ++ ln :: fenceLine :: fmtGo ls true
    else if s.isEmpty && inCode then fenceLine :: ln :: fmtGo ls false
    else ln :: fmtGo ls inCode

/-- format_content_for_markdown. -/
def format_content_for_markdown (text : String) : String :=
  ⟨joinNl (fmtGo (splitNl text.data) false)⟩

/-- Line 257: formatted_content.count(the Source marker). -/
def source_count (text : String) : Nat :=
  pyCount srcMarker (format_content_for_markdown text).data

/-- Line 258: formatted_content.count(the Sink marker). -/
def sink_count (text : String) : Nat :=
  pyCount sinkMarker (format_content_for_markdown text).data

/-- The count the claim asserts, following the spec's words: the marker
occurrences that were wrapped in delimited evidence blocks, i.e. the
lines whose stripped form begins with the marker (exactly those open a
delimited block in step 4). -/
def delimitedMarkerCount (marker : List Char) (text : String) : Nat :=
  ((splitNl text.data).filter (fun ln => marker.isPrefixOf (pyStrip ln))).length

theorem isPrefixOf_append_right {n x : List Char} (y : List Char)
    (h : n.isPrefixOf x = true) : n.isPrefixOf (x ++ y) = true := by
  rw [List.isPrefixOf_iff_prefix] at h ⊢
  exact h.trans (List.prefix_append x y)

theorem isPrefixOf_of_append_le {n x y : List Char}
    (h : n.isPrefixOf (x ++ y) = true) (hl : n.length ≤ x.length) :
    n.isPrefixOf x = true := by
  rw [List.isPrefixOf_iff_prefix] at h ⊢
  exact List.prefix_of_prefix_length_le h (List.prefix_append x y) hl

theorem length_le_of_isPrefixOf_append_nl {n : List Char} (hnl : '\n' ∉ n)
    {x b : List Char} (h : n.isPrefixOf (x ++ '\n' :: b) = true) :
    n.length ≤ x.length := by
  rw [List.isPrefixOf_iff_prefix] at h
  induction x generalizing n with
  | nil =>
    rcases n with _ | ⟨d, n'⟩
    · simp
    · rw [List.nil_append] at h
      rcases List.cons_prefix_cons.mp h with ⟨hd, _⟩
      subst hd
      exact absurd (List.mem_cons_self _ _) hnl
  | cons c t ih =>
    rcases n with _ | ⟨d, n'⟩
    · simp
    · rw [List.cons_append] at h
      rcases List.cons_prefix_cons.mp h with ⟨hd, h'⟩
      have hnl' : '\n' ∉ n' := fun hm => hnl (List.mem_cons_of_mem d hm)
      simpa [Nat.succ_le_succ_iff] using ih hnl' h'

theorem countGo_append_nl {n : List Char} (hnl : '\n' ∉ n) (hne : n ≠ []) :
    ∀ (a : List Char) (k : Nat) (b : List Char), k ≤ a.length →
      countGo n (a ++ '\n' :: b) k = countGo n a k + countGo n b 0 := by
  intro a
  induction a with
  | nil =>
    intro k b hk
    have hk0 : k = 0 := Nat.le_zero.mp hk
    subst hk0
    rw [List.nil_append]
    have hp : ¬ n.isPrefixOf ('\n' :: b) = true := by
      intro hcp
      rw [List.isPrefixOf_iff_prefix] at hcp
      rcases n with _ | ⟨d, n'⟩
      · exact hne rfl
      · rcases List.cons_prefix_cons.mp hcp with ⟨hd, _⟩
        subst hd
        exact hnl (List.mem_cons_self _ _)
    simp only [countGo, if_neg hp]
    omega
  | cons c t ih =>
    intro k b hk
    rcases k with _ | j
    · by_cases hp : n.isPrefixOf (c :: (t ++ '\n' :: b)) = true
      · have hp' : n.isPrefixOf ((c :: t) ++ '\n' :: b) = true := by
          simpa using hp
        have hlen : n.length ≤ (c :: t).length :=
          length_le_of_isPrefixOf_append_nl hnl hp'
        have hpx : n.isPrefixOf (c :: t) = true := isPrefixOf_of_append_le hp' hlen
        have hone : 1 ≤ n.length := by
          rcases n with _ | _
          · exact absurd rfl hne
          · simp
        have hk' : n.length - 1 ≤ t.length := by
          simp only [List.length_cons] at hlen
          omega
        simp only [List.cons_append, countGo, List.append_eq]
        rw [if_pos hp, if_pos hpx, ih (n.length - 1) b hk']
        omega
      · have hpx : ¬ n.isPrefixOf (c :: t) = true := by
          intro hx
          exact hp (by simpa using isPrefixOf_append_right ('\n' :: b) hx)
        simp only [List.cons_append, countGo, List.append_eq]
        rw [if_neg hp, if_neg hpx]
        exact ih 0 b (Nat.zero_le _)
    · simp only [List.cons_append, countGo, List.append_eq]
      exact ih j b (by simpa [Nat.succ_le_succ_iff] using hk)

theorem countGo_joinNl {n : List Char} (hnl : '\n' ∉ n) (hne : n ≠ []) :
    ∀ ls : List (List Char),
      countGo n (joinNl ls) 0 = (ls.map (fun l => countGo n l 0)).sum := by
  intro ls
  induction ls with
  | nil => simp [joinNl, countGo]
  | cons l ls ih =>
    rcases ls with _ | ⟨m, ms⟩
    · simp [joinNl]
    · show countGo n (l ++ '\n' :: joinNl (m :: ms)) 0 = _
      rw [countGo_append_nl hnl hne l 0 _ (Nat.zero_le _), ih]
      simp

theorem splitNl_ne_nil (l : List Char) : splitNl l ≠ [] := by
  cases l with
  | nil => simp [splitNl]
  | cons c t =>
    simp only [splitNl]
    by_cases hc : c = '\n'
    · simp [hc]
    · rw [if_neg hc]
      rcases splitNl t with _ | ⟨h, hs⟩ <;> simp

theorem joinNl_splitNl (l : List Char) : joinNl (splitNl l) = l := by
  induction l with
  | nil => rfl
  | cons c t ih =>
    by_cases hc : c = '\n'
    · subst hc
      show joinNl (splitNl ('\n' :: t)) = '\n' :: t
      simp only [splitNl, if_pos rfl]
      rcases hs : splitNl t with _ | ⟨h, hs'⟩
      · exact absurd hs (splitNl_ne_nil t)
      · show [] ++ '\n' :: joinNl (h :: hs') = '\n' :: t
        rw [List.nil_append, ← hs, ih]
    · simp only [splitNl, if_neg hc]
      rcases hs : splitNl t with _ | ⟨h, hs'⟩
      · exact absurd hs (splitNl_ne_nil t)
      · rcases hs' with _ | ⟨m, ms⟩
        · have ht : h = t := by
            have := ih
            rw [hs] at this
            simpa [joinNl] using this
          show joinNl [c :: h] = c :: t
          rw [show joinNl [c :: h] = c :: h from rfl, ht]
        · have hj : joinNl (h :: m :: ms) = t := by
            rw [← hs]
            exact ih
          show (c :: h) ++ '\n' :: joinNl (m :: ms) = c :: t
          rw [List.cons_append, ← hj]
          rfl

theorem fmtGo_sum {n : List Char} (hfence : countGo n fenceLine 0 = 0) :
    ∀ (ls : List (List Char)) (b : Bool),
      ((fmtGo ls b).map (fun l => countGo n l 0)).sum =
        (ls.map (fun l => countGo n l 0)).sum := by
  intro ls
  induction ls with
  | nil =>
    intro b
    cases b
    · rfl
    · simp [fmtGo, hfence]
  | cons ln ls ih =>
    intro b
    by_cases h1 : (srcMarker.isPrefixOf (pyStrip ln) ||
        sinkMarker.isPrefixOf (pyStrip ln)) = true
    · cases b
      · have hunf : fmtGo (ln :: ls) false = ln :: fenceLine :: fmtGo ls true := by
          simp [fmtGo, h1]
        rw [hunf]
        simp [hfence, ih]
      · have hunf : fmtGo (ln :: ls) true =
            fenceLine :: ln :: fenceLine :: fmtGo ls true := by
          simp [fmtGo, h1]
        rw [hunf]
        simp [hfence, ih]
    · by_cases h2 : ((pyStrip ln).isEmpty && b) = true
      · have hb : b = true := by
          rcases b with _ | _
          · simp at h2
          · rfl
        subst hb
        have hemp : (pyStrip ln).isEmpty = true := by simpa using h2
        have hunf : fmtGo (ln :: ls) true = fenceLine :: ln :: fmtGo ls false := by
          simp [fmtGo, h1, hemp]
        rw [hunf]
        simp [hfence, ih]
      · have hunf : fmtGo (ln :: ls) b = ln :: fmtGo ls b := by
          simp [fmtGo, h1, h2]
        rw [hunf]
        simp [ih]

theorem count_format_preserved {n : List Char} (hnl : '\n' ∉ n) (hne : n ≠ [])
    (hfence : countGo n fenceLine 0 = 0) (text : String) :
    countGo n (format_content_for_markdown text).data 0 = countGo n text.data 0 := by
  show countGo n (joinNl (fmtGo (splitNl text.data) false)) 0 = _
  rw [countGo_joinNl hnl hne, fmtGo_sum hfence, ← countGo_joinNl hnl hne, joinNl_splitNl]

/-- Claim C5 (amended): the source-count and sink-count attached to a
category equal the number of leftmost non-overlapping occurrences of
the markers ANYWHERE in the final reformatted body text, which in turn
equals the number of occurrences in the cleaned pre-format text
(delimiting neither adds nor removes marker occurrences) — not only the
occurrences wrapped in delimited blocks; a marker occurring mid-line is
counted although step 4 never wraps it, see c5_claim_counterexample. -/
theorem c5_evidence_counts (text : String) :
    source_count text = pyCount srcMarker text.data ∧
    sink_count text = pyCount sinkMarker text.data := by
  constructor
  · show pyCount srcMarker (format_content_for_markdown text).data = _
    unfold pyCount
    rw [if_neg (by decide), if_neg (by decide)]
    exact count_format_preserved (by decide) (by decide) (by decide) text
  · show pyCount sinkMarker (format_content_for_markdown text).data = _
    unfold pyCount
    rw [if_neg (by decide), if_neg (by decide)]
    exact count_format_preserved (by decide) (by decide) (by decide) text

/-- Claim C5, counterexample to the claim as stated: in the text
"x Source: foo" the marker does not begin any stripped line, so no
delimited block is created (zero delimited occurrences), yet the
attached source-count is 1. -/
theorem c5_claim_counterexample :
    ¬ (source_count "x Source: foo" =
        delimitedMarkerCount srcMarker "x Source: foo") := by decide

/-! ## ReportDecomposer (actions/process_pdfs.py, process_pdf_file,
lines 213-334)

The category pattern of line 213: a span starts at "Category: ", must
contain (DOTALL-lazily) a digit run followed by " Issue" with optional
"s" at least one character after the marker, and extends lazily up to
the next "Category: " or the end of the text.  finditer resumes after
each span.  The embedding scans character lists; the fuel of the outer
loop is the text length, ample since every span consumes at least the
marker. -/

/-- The span-start marker "Category: " (with trailing space). -/
def catMarker : List Char := ("Category: " : String).data

/-- Whether a digit run immediately followed by " Issue" starts
anywhere in the list (the backslash-d-plus " Issues?" part; a
non-maximal digit run is never followed by the space, so only maximal
runs can match). -/
def hasDigitIssue : List Char → Bool
  | [] => false
  | c :: t =>
    (c.isDigit && (" Issue" : String).data.isPrefixOf (t.dropWhile Char.isDigit)) ||
      hasDigitIssue t

/-- Whether the whole pattern matches starting at this suffix: the
marker, then at least one character, then the digit-issue phrase. -/
def matchableAt (s : List Char) : Bool :=
  catMarker.isPrefixOf s && hasDigitIssue (s.drop 11)

/-- The leftmost suffix at which a span starts. -/
def findMatchStart : List Char → Option (List Char)
  | [] => Option.none
  | c :: t => if matchableAt (c :: t) then some (c :: t) else findMatchStart t

/-- Length consumed through the end of the first digit-issue phrase of
the suffix (digits, " Issue", optional "s" taken greedily). -/
def issueEndLen : List Char → Option Nat
  | [] => Option.none
  | c :: t =>
    if c.isDigit && (" Issue" : String).data.isPrefixOf (t.dropWhile Char.isDigit) then
      let rest := (t.dropWhile Char.isDigit).drop 6
      some (1 + (t.takeWhile Char.isDigit).length + 6 +
        (if rest.head? == some 's' then 1 else 0))
    else (issueEndLen t).map (fun k => k + 1)

/-- The lazy tail scan: consume until the lookahead "Category: " or the
end of text, returning the consumed part and the remainder. -/
def scanToNextCat : List Char → List Char × List Char
  | [] => ([], [])
  | c :: t =>
    if catMarker.isPrefixOf (c :: t) then ([], c :: t)
    else
      let p := scanToNextCat t
      (c :: p.1, p.2)

/-- One span (the regex group 1) and the remainder the next finditer
step resumes from. -/
def takeSpan (s : List Char) : Option (List Char × List Char) :=
  match issueEndLen (s.drop 11) with
  | Option.none => Option.none
  | some k =>
    let head := s.take (11 + k)
    let p := scanToNextCat (s.drop (11 + k))
    some (head ++ p.1, p.2)

/-- The finditer loop over the text, with explicit fuel. -/
def findSpansGo : Nat → List Char → List (List Char)
  | 0, _ => []
  | fuel + 1, l =>
    match findMatchStart l with
    | Option.none => []
    | some s =>
      match takeSpan s with
      | Option.none => []
      | some p => p.1 :: findSpansGo fuel p.2

/-- All category spans of the text, in document order (line 214). -/
def findCategorySpans (l : List Char) : List (List Char) :=
  findSpansGo (l.length + 1) l

/-- Whether the whitespace-star-parenthesis tail of the title regex
matches here: optional whitespace then an opening parenthesis. -/
def wsParen (t : List Char) : Bool :=
  match t.dropWhile isWsChar with
  | '(' :: _ => true
  | _ => false

/-- The lazy title scan of the regex of line 247: the shortest
non-empty prefix after which optional whitespace reaches an opening
parenthesis. -/
def titleScanGo (acc : List Char) : List Char → Option (List Char)
  | [] => Option.none
  | c :: t =>
    if wsParen t then some (c :: acc).reverse else titleScanGo (c :: acc) t

/-- re.search of the title pattern: scan for a "Category: " start whose
tail admits the lazy title, else move right. -/
def extractTitle : List Char → Option (List Char)
  | [] => Option.none
  | c :: t =>
    if catMarker.isPrefixOf (c :: t) then
      match titleScanGo [] ((c :: t).drop 10) with
      | some title => some title
      | Option.none => extractTitle t
    else extractTitle t

/-- `severity.capitalize()`. -/
def capS (s : String) : String := ⟨pyCapitalize s.data⟩

/-- The per-span issue record of lines 244-309: category name from the
title regex (strip applied) or the Unknown_Category fallback, and the
solution status exactly as the code words it; `appendOk` tells whether
the filesystem append of the matched solution succeeds for issue i. -/
def issueOfSpan (generic : List (String × String))
    (specific : List (String × SolutionInfo)) (appendOk : Nat → Bool)
    (i : Nat) (span : List Char) : IssueData :=
  let category_content := pyStrip span
  let header_line := category_content.takeWhile (fun c => c != '\n')
  let category_name : String :=
    match extractTitle header_line with
    | some title => ⟨pyStrip title⟩
    | Option.none => "Unknown_Category_" ++ toString i
  let status : String :=
    match List.lookup (clean_filename category_name) specific with
    | some info =>
      if appendOk i then "專屬解法 (來源: " ++ capS info.severity ++ ")"
      else "解法附加失敗"
    | Option.none =>
      match get_severity_from_header ⟨header_line⟩ with
      | some sev =>
        match List.lookup sev generic with
        | some _ =>
          if appendOk i then "通用解法 (來源: " ++ capS sev ++ ")"
          else "解法附加失敗"
        | Option.none => "無對應解法"
      | Option.none => "無對應解法"
  IssueData.mk i category_name status

/-- The decomposition outcome of process_pdf_file: either the
fully-remediated terminal state with its issues_count field (lines
216-239), or the per-issue records (line 334).  The embedding has no
error constructor for the zero-span case: only the exception handler of
line 336 produces an error result, never the empty match list. -/
inductive ProcessResult where
  | fullyRemediated (issues_count : Nat)
  | report (issues : List IssueData)
deriving DecidableEq

/-- process_pdf_file on the extracted text (lines 213-334). -/
def process_report (text : String) (generic : List (String × String))
    (specific : List (String × SolutionInfo)) (appendOk : Nat → Bool) : ProcessResult :=
  let spans := findCategorySpans text.data
  if spans.isEmpty then ProcessResult.fullyRemediated 0
  else
    ProcessResult.report
      (spans.enum.map (fun p => issueOfSpan generic specific appendOk (p.1 + 1) p.2))

/-- Claim C8: for every raw report text in which the decomposer locates
zero category spans, the decomposition returns the fully-remediated
terminal state reporting zero issues — a success value of the result
type, not an error (errors arise only from the exception handler, which
the absence of matches never reaches). -/
theorem c8_zero_spans_fully_remediated (text : String)
    (generic : List (String × String)) (specific : List (String × SolutionInfo))
    (appendOk : Nat → Bool) (h : findCategorySpans text.data = []) :
    process_report text generic specific appendOk = ProcessResult.fullyRemediated 0 := by
  unfold process_report
  rw [h]
  rfl

/-- Claim C8, witness: a report text with no category header decomposes
to the fully-remediated state, via the theorem. -/
theorem c8_zero_spans_fully_remediated_witness :
    findCategorySpans ("此專案已完全修復 no findings" : String).data = [] ∧
      process_report "此專案已完全修復 no findings" [] [] (fun _ => true) =
        ProcessResult.fullyRemediated 0 :=
  ⟨by decide,
    c8_zero_spans_fully_remediated "此專案已完全修復 no findings" [] [] (fun _ => true)
      (by decide)⟩

/-- Claim C10, witness: the download-state region name reports
not-fresh on a state where the other regions would be fresh. -/
theorem c10_freshness_other_regions_witness :
    is_cache_fresh
        (CacheState.mk (some [("alpha", 7)]) (some (RegionCache.mk (some 0) []))
          (some (RegionCache.mk (some 0) [])) (some (RegionCache.mk (some 0) [])))
        "download_state" 1000 0 = false :=
  c10_freshness_other_regions
    (CacheState.mk (some [("alpha", 7)]) (some (RegionCache.mk (some 0) []))
      (some (RegionCache.mk (some 0) [])) (some (RegionCache.mk (some 0) [])))
    "download_state" 1000 0 (by decide) (by decide) (by decide)

end Fortify


